import Mathlib

/-!
# Verification of the basic ray tracer

A shallow embedding of `src/basic-raytracing/raytracer.js` (the variant in
`src/unnamed/part_000` shares the projection, intersection, closest-hit and
pixel-write code verbatim; it only lacks the lighting pass).  JavaScript
numbers are modelled by `ℝ`, and the `Infinity` sentinel used for "no
intersection" by `EReal`'s `⊤`.  Globals of the script (the scene, the canvas
and viewport constants, the pixel buffer) become explicit parameters.
-/

noncomputable section

namespace RayTracer

/-- A 3D vector `{x, y, z}`. -/
structure Vec3 where
  x : ℝ
  y : ℝ
  z : ℝ
deriving DecidableEq

/-- An RGB color `{r, g, b}`. -/
structure Color where
  r : ℝ
  g : ℝ
  b : ℝ
deriving DecidableEq

/-- Source: `dot(a, b)`. -/
def dot (a b : Vec3) : ℝ :=
  a.x * b.x + a.y * b.y + a.z * b.z

/-- Source: `subtract(a, b)`. -/
def subtract (a b : Vec3) : Vec3 :=
  ⟨a.x - b.x, a.y - b.y, a.z - b.z⟩

/-- Source: `add(a, b)`. -/
def add (a b : Vec3) : Vec3 :=
  ⟨a.x + b.x, a.y + b.y, a.z + b.z⟩

/-- Source: `multiply(v, scalar)`. -/
def multiply (v : Vec3) (scalar : ℝ) : Vec3 :=
  ⟨v.x * scalar, v.y * scalar, v.z * scalar⟩

/-- Source: `divide(v, scalar)`. -/
def divide (v : Vec3) (scalar : ℝ) : Vec3 :=
  ⟨v.x / scalar, v.y / scalar, v.z / scalar⟩

/-- Source: `length(v) = Math.sqrt(v.x*v.x + v.y*v.y + v.z*v.z)`. -/
def length (v : Vec3) : ℝ :=
  Real.sqrt (v.x * v.x + v.y * v.y + v.z * v.z)

/-- A sphere of the scene: center, radius, color, specular exponent. -/
structure Sphere where
  center : Vec3
  radius : ℝ
  color : Color
  specular : ℝ
deriving DecidableEq

/-- A light of the scene: the string-tagged variants of the source. -/
inductive Light where
  | ambient (intensity : ℝ)
  | point (intensity : ℝ) (position : Vec3)
  | directional (intensity : ℝ) (direction : Vec3)
deriving DecidableEq

/-- The `intensity` field shared by all light variants. -/
def Light.intensity : Light → ℝ
  | .ambient k => k
  | .point k _ => k
  | .directional k _ => k

/-- A scene: an ordered list of spheres and an ordered list of lights. -/
structure Scene where
  spheres : List Sphere
  lights : List Light

/-- Source: `const BACKGROUND_COLOR = { r: 255, g: 255, b: 255 }`
(`raytracer.js`; the `part_000` variant uses black instead). -/
def BACKGROUND_COLOR : Color := ⟨255, 255, 255⟩

/-- Source: `CanvasToViewport(x, y)`, with the globals `Cw`, `Ch`, `Vw`,
`Vh`, `d` made into parameters. -/
def CanvasToViewport (x y Cw Ch Vw Vh d : ℝ) : Vec3 :=
  ⟨x * Vw / Cw, y * Vh / Ch, d⟩

/-- Source: `IntersectRaySphere(O, D, sphere)`.  Returns the two quadratic
roots; `(⊤, ⊤)` models the JavaScript `[Infinity, Infinity]` no-hit result. -/
def IntersectRaySphere (O D : Vec3) (sphere : Sphere) : EReal × EReal :=
  let CO := subtract O sphere.center
  let a := dot D D
  let b := 2 * dot CO D
  let c := dot CO CO - sphere.radius * sphere.radius
  let discriminant := b * b - 4 * a * c
  if discriminant < 0 then
    (⊤, ⊤)
  else
    let sqrtD := Real.sqrt discriminant
    (((- b + sqrtD) / (2 * a) : ℝ), ((- b - sqrtD) / (2 * a) : ℝ))

/-- Source: the body of the `ComputeLighting` loop for one non-ambient
light, acting on the accumulator `i`; `L` is the already-derived light
vector and `intensity` the light's intensity. -/
def diffuseSpecular (N V : Vec3) (s i intensity : ℝ) (L : Vec3) : ℝ :=
  let n_dot_l := dot N L
  let i1 :=
    if 0 < n_dot_l then i + intensity * (n_dot_l / (length N * length L)) else i
  if s ≠ -1 then
    let R := subtract (multiply N (2 * dot N L)) L
    let r_dot_v := dot R V
    if 0 < r_dot_v then
      i1 + intensity * (r_dot_v / (length R * length V)) ^ s
    else i1
  else i1

/-- Source: one iteration of the `ComputeLighting` loop: ambient lights add
their intensity; point lights use `L = position - P`, directional lights the
stored direction. -/
def lightingStep (P N V : Vec3) (s : ℝ) (i : ℝ) : Light → ℝ
  | .ambient intensity => i + intensity
  | .point intensity position => diffuseSpecular N V s i intensity (subtract position P)
  | .directional intensity direction => diffuseSpecular N V s i intensity direction

/-- Source: `ComputeLighting(P, N, V, s)`, with the global `scene.lights`
made into a parameter; the loop starting from `i = 0.0` is a left fold. -/
def ComputeLighting (lights : List Light) (P N V : Vec3) (s : ℝ) : ℝ :=
  lights.foldl (lightingStep P N V s) 0

/-- Spec-side reflection vector, following the spec text for claim C3:
`R = 2*dot(N,L)*N - L`, written out componentwise. -/
def reflectSpec (N L : Vec3) : Vec3 :=
  ⟨2 * dot N L * N.x - L.x, 2 * dot N L * N.y - L.y, 2 * dot N L * N.z - L.z⟩

/-- Spec-side contribution of one non-ambient light, following the spec text
for claim C3: a diffuse term `intensity * dot(N,L) / (|N|*|L|)` added exactly
when `dot(N,L) > 0`, plus — unless `s = -1` — a specular term
`intensity * (dot(R,V) / (|R|*|V|))^s` added exactly when `dot(R,V) > 0`. -/
def contributionSpec (N V : Vec3) (s intensity : ℝ) (L : Vec3) : ℝ :=
  (if 0 < dot N L then intensity * (dot N L / (length N * length L)) else 0) +
    (if s ≠ -1 ∧ 0 < dot (reflectSpec N L) V then
      intensity *
        (dot (reflectSpec N L) V / (length (reflectSpec N L) * length V)) ^ s
    else 0)

/-- Spec-side per-light term for claim C3: intensity for an ambient light,
and the diffuse-plus-specular contribution otherwise, with `L` derived as
`position - P` for point lights and the stored direction for directional
lights. -/
def lightTermSpec (P N V : Vec3) (s : ℝ) : Light → ℝ
  | .ambient intensity => intensity
  | .point intensity position => contributionSpec N V s intensity (subtract position P)
  | .directional intensity direction => contributionSpec N V s intensity direction

/-- Source: the `scene` constant of `raytracer.js` (four spheres, three
lights). -/
def scene : Scene :=
  ⟨[⟨⟨0, -1, 3⟩, 1, ⟨255, 0, 0⟩, 500⟩,
    ⟨⟨2, 0, 4⟩, 1, ⟨0, 0, 255⟩, 500⟩,
    ⟨⟨-2, 0, 4⟩, 1, ⟨0, 255, 0⟩, 10⟩,
    ⟨⟨0, -5001, 0⟩, 5000, ⟨255, 255, 0⟩, 1000⟩],
   [.ambient 0.2, .point 0.6 ⟨2, 1, 0⟩, .directional 0.2 ⟨1, 4, 4⟩]⟩

/-- Source: one of the two identical `if` blocks of the `TraceRay` loop:
accept root `t` of `sphere` as the new closest hit when
`t >= t_min && t <= t_max && t < closest_t`. -/
def consider (t : EReal) (sphere : Sphere) (t_min t_max : EReal)
    (acc : EReal × Option Sphere) : EReal × Option Sphere :=
  if t_min ≤ t ∧ t ≤ t_max ∧ t < acc.1 then (t, some sphere) else acc

/-- Source: one iteration of the `TraceRay` loop over the scene's spheres:
test `t1` first, then `t2` against the possibly-updated accumulator. -/
def traceStep (O D : Vec3) (t_min t_max : EReal)
    (acc : EReal × Option Sphere) (sphere : Sphere) : EReal × Option Sphere :=
  consider (IntersectRaySphere O D sphere).2 sphere t_min t_max
    (consider (IntersectRaySphere O D sphere).1 sphere t_min t_max acc)

/-- Source: the closest-hit loop of `TraceRay`: fold over the sphere list
starting from `closest_t = Infinity`, `closest_sphere = null`. -/
def findClosest (O D : Vec3) (t_min t_max : EReal) (spheres : List Sphere) :
    EReal × Option Sphere :=
  spheres.foldl (traceStep O D t_min t_max) (⊤, none)

/-- Source: `TraceRay(O, D, t_min, t_max)` of `raytracer.js`, with the
global `scene` made into a parameter.  On a hit, `closest_t` is the finite
real stored in the accumulator. -/
def TraceRay (sc : Scene) (O D : Vec3) (t_min t_max : EReal) : Color :=
  match findClosest O D t_min t_max sc.spheres with
  | (_, none) => BACKGROUND_COLOR
  | (ct, some closest_sphere) =>
    let closest_t := ct.toReal
    let P := add O (multiply D closest_t)
    let N0 := subtract P closest_sphere.center
    let N := divide N0 (length N0)
    let V := multiply D (-1)
    let lighting := ComputeLighting sc.lights P N V closest_sphere.specular
    ⟨closest_sphere.color.r * lighting,
     closest_sphere.color.g * lighting,
     closest_sphere.color.b * lighting⟩

/-- A candidate hit for the closest-hit loop: one of the two values returned
by `IntersectRaySphere` for `sphere`, lying within `[t_min, t_max]`. -/
def validRoot (O D : Vec3) (t_min t_max : EReal) (sphere : Sphere)
    (t : EReal) : Prop :=
  (t = (IntersectRaySphere O D sphere).1 ∨
      t = (IntersectRaySphere O D sphere).2) ∧
    t_min ≤ t ∧ t ≤ t_max

/-- A concrete sphere used to exercise the theorems: centered `(0,0,3)`,
radius `1`; the ray from the origin along `(0,0,1)` meets it at `t = 2` and
`t = 4`. -/
def demoSphereA : Sphere := ⟨⟨0, 0, 3⟩, 1, ⟨255, 0, 0⟩, 500⟩

/-- A second concrete sphere: centered `(0,0,8)`, radius `1`; the same ray
meets it at `t = 7` and `t = 9`, behind `demoSphereA`. -/
def demoSphereB : Sphere := ⟨⟨0, 0, 8⟩, 1, ⟨0, 0, 255⟩, 500⟩

/-- A concrete two-sphere scene with a single ambient light. -/
def demoScene : Scene := ⟨[demoSphereA, demoSphereB], [.ambient 1]⟩

/-- Source: the centered-to-raster conversion at the top of `PutPixel`:
`px = Cw/2 + x`, `py = Ch/2 - y` (the canvas y-axis is inverted). -/
def rasterOfCentered (Cw Ch x y : ℝ) : ℝ × ℝ :=
  (Cw / 2 + x, Ch / 2 - y)

/-- Source: `PutPixel(x, y, color)`, with the canvas globals and the pixel
buffer made into parameters; the flat `imgData.data` array is modelled as a
function from index to stored value.  (The host `Uint8ClampedArray` clamps
stored channels; the claims below concern the coordinate conversion and the
bounds guard, so stores are modelled unclamped.) -/
def PutPixel (Cw Ch : ℝ) (x y : ℝ) (color : Color) (data : ℝ → ℝ) :
    ℝ → ℝ :=
  let px := (rasterOfCentered Cw Ch x y).1
  let py := (rasterOfCentered Cw Ch x y).2
  if px < 0 ∨ Cw ≤ px ∨ py < 0 ∨ Ch ≤ py then data
  else
    let index := (px + py * Cw) * 4
    fun j =>
      if j = index then color.r
      else if j = index + 1 then color.g
      else if j = index + 2 then color.b
      else if j = index + 3 then 255
      else data j

end RayTracer

namespace RayTracer

/-- C2: `IntersectRaySphere` forms `CO = O - center`, `a = dot(D,D)`,
`b = 2*dot(CO,D)`, `c = dot(CO,CO) - radius²`, `disc = b² - 4ac`; it returns
`(∞, ∞)` iff the discriminant is negative, and otherwise exactly the roots
`(-b ± √disc) / (2a)` with `t1` the `+` root. -/
theorem IntersectRaySphere_quadratic (O D : Vec3) (sphere : Sphere)
    (a b c disc : ℝ)
    (ha : a = dot D D)
    (hb : b = 2 * dot (subtract O sphere.center) D)
    (hc : c = dot (subtract O sphere.center) (subtract O sphere.center) -
      sphere.radius * sphere.radius)
    (hdisc : disc = b * b - 4 * a * c) :
    (IntersectRaySphere O D sphere = (⊤, ⊤) ↔ disc < 0) ∧
      (0 ≤ disc →
        IntersectRaySphere O D sphere =
          ((((- b + Real.sqrt disc) / (2 * a) : ℝ) : EReal),
           (((- b - Real.sqrt disc) / (2 * a) : ℝ) : EReal))) := by
  subst ha hb hc hdisc
  simp only [IntersectRaySphere]
  constructor
  · constructor
    · intro h
      by_contra hlt
      push_neg at hlt
      rw [if_neg (not_lt.mpr hlt)] at h
      exact EReal.coe_ne_top _ (congrArg Prod.fst h)
    · intro h
      rw [if_pos h]
  · intro h
    rw [if_neg (not_lt.mpr h)]

/-- Witness for C2 at a concrete ray and sphere: origin `(0,0,0)`, direction
`(0,0,1)`, sphere centered `(0,0,3)` with radius `1` has coefficients
`a = 1`, `b = -6`, `c = 8`, discriminant `4` and roots `t1 = 4`, `t2 = 2`. -/
theorem IntersectRaySphere_quadratic_witness :
    IntersectRaySphere ⟨0, 0, 0⟩ ⟨0, 0, 1⟩ ⟨⟨0, 0, 3⟩, 1, ⟨255, 0, 0⟩, 500⟩ =
      (((4 : ℝ) : EReal), ((2 : ℝ) : EReal)) := by
  have h := (IntersectRaySphere_quadratic ⟨0, 0, 0⟩ ⟨0, 0, 1⟩
    ⟨⟨0, 0, 3⟩, 1, ⟨255, 0, 0⟩, 500⟩ 1 (-6) 8 4
    (by simp [dot, subtract]) (by simp [dot, subtract]; norm_num)
    (by simp [dot, subtract]; norm_num) (by norm_num)).2 (by norm_num)
  rw [h]
  have h4 : Real.sqrt 4 = 2 := by
    rw [show (4 : ℝ) = 2 ^ 2 by norm_num, Real.sqrt_sq (by norm_num)]
  rw [h4]
  norm_num

/-- The reflection vector computed by the source (`multiply N (2*dot N L)`
minus `L`) agrees with the spec's `2*dot(N,L)*N - L`. -/
lemma reflect_eq (N L : Vec3) :
    subtract (multiply N (2 * dot N L)) L = reflectSpec N L := by
  simp only [subtract, multiply, reflectSpec, Vec3.mk.injEq]
  refine ⟨by ring, by ring, by ring⟩

/-- One lighting-loop iteration adds exactly the spec's per-light term to the
accumulator. -/
lemma lightingStep_eq (P N V : Vec3) (s i : ℝ) (light : Light) :
    lightingStep P N V s i light = i + lightTermSpec P N V s light := by
  cases light with
  | ambient intensity => rfl
  | point intensity position =>
      simp only [lightingStep, lightTermSpec, diffuseSpecular,
        contributionSpec, reflect_eq]
      split_ifs with h1 h2 h3 h2 <;> simp_all <;> ring
  | directional intensity direction =>
      simp only [lightingStep, lightTermSpec, diffuseSpecular,
        contributionSpec, reflect_eq]
      split_ifs with h1 h2 h3 h2 <;> simp_all <;> ring

/-- The lighting fold started from any accumulator adds the sum of the
spec's per-light terms. -/
lemma lighting_foldl_eq (P N V : Vec3) (s : ℝ) (lights : List Light) :
    ∀ i : ℝ, lights.foldl (lightingStep P N V s) i =
      i + (lights.map (lightTermSpec P N V s)).sum := by
  induction lights with
  | nil => intro i; simp
  | cons light rest ih =>
      intro i
      simp only [List.foldl_cons, List.map_cons, List.sum_cons, ih,
        lightingStep_eq]
      ring

/-- C3: `ComputeLighting` equals the sum over all lights of: the intensity
for an ambient light; plus a diffuse term `intensity * dot(N,L) / (|N|*|L|)`
added exactly when `dot(N,L) > 0`, with `L = position - P` for a point light
and the stored direction for a directional light; plus, unless `s = -1`, a
specular term `intensity * (dot(R,V) / (|R|*|V|))^s` with
`R = 2*dot(N,L)*N - L`, added exactly when `dot(R,V) > 0`. -/
theorem ComputeLighting_is_sum_of_terms (lights : List Light) (P N V : Vec3)
    (s : ℝ) :
    ComputeLighting lights P N V s =
      (lights.map (lightTermSpec P N V s)).sum := by
  rw [ComputeLighting, lighting_foldl_eq, zero_add]

/-- C6: with a light list consisting of exactly one ambient light of
intensity `k` and no other lights, `ComputeLighting` returns exactly `k`,
for every `P`, `N`, `V` and every specular exponent `s`. -/
theorem ComputeLighting_ambient_only (P N V : Vec3) (s k : ℝ) :
    ComputeLighting [Light.ambient k] P N V s = k := by
  simp [ComputeLighting, lightingStep]

/-- One lighting-loop iteration preserves non-negativity of the accumulator
when the light's intensity is non-negative. -/
lemma lightingStep_nonneg (P N V : Vec3) (s i : ℝ) (light : Light)
    (hi : 0 ≤ i) (hk : 0 ≤ light.intensity) :
    0 ≤ lightingStep P N V s i light := by
  have key : ∀ intensity : ℝ, 0 ≤ intensity → ∀ L : Vec3,
      0 ≤ diffuseSpecular N V s i intensity L := by
    intro intensity hint L
    have hlen : ∀ v : Vec3, 0 ≤ length v := fun v => Real.sqrt_nonneg _
    simp only [diffuseSpecular]
    set i1 := (if 0 < dot N L then
        i + intensity * (dot N L / (length N * length L)) else i) with hi1def
    have hi1 : 0 ≤ i1 := by
      rw [hi1def]
      split_ifs with h
      · exact add_nonneg hi (mul_nonneg hint
          (div_nonneg h.le (mul_nonneg (hlen N) (hlen L))))
      · exact hi
    split_ifs with h1 h2
    · exact add_nonneg hi1 (mul_nonneg hint (Real.rpow_nonneg
        (div_nonneg h2.le (mul_nonneg (hlen _) (hlen V))) s))
    · exact hi1
    · exact hi1
  cases light with
  | ambient intensity => exact add_nonneg hi hk
  | point intensity position => exact key intensity hk _
  | directional intensity direction => exact key intensity hk _

/-- C10: for every `P`, `N`, `V`, every specular exponent, and every light
list whose intensities are all non-negative, `ComputeLighting` returns a
non-negative value: the accumulator starts at `0` and every added term is
non-negative. -/
theorem ComputeLighting_nonneg (lights : List Light) (P N V : Vec3) (s : ℝ)
    (h : ∀ l ∈ lights, 0 ≤ l.intensity) :
    0 ≤ ComputeLighting lights P N V s := by
  rw [ComputeLighting]
  have main : ∀ L : List Light, (∀ l ∈ L, 0 ≤ l.intensity) → ∀ i : ℝ,
      0 ≤ i → 0 ≤ L.foldl (lightingStep P N V s) i := by
    intro L
    induction L with
    | nil => intro _ i hi; simpa using hi
    | cons light rest ih =>
        intro hL i hi
        rw [List.foldl_cons]
        exact ih (fun l hl => hL l (List.mem_cons_of_mem _ hl))
          _ (lightingStep_nonneg P N V s i light hi
            (hL light (List.mem_cons_self _ _)))
  exact main lights h 0 le_rfl

/-- Witness for C10 at the repository's own light list and a concrete
surface point: the lighting intensity is non-negative. -/
theorem ComputeLighting_nonneg_witness :
    0 ≤ ComputeLighting scene.lights ⟨0, 0, 0⟩ ⟨0, 1, 0⟩ ⟨0, 0, -1⟩ 500 := by
  refine ComputeLighting_nonneg scene.lights ⟨0, 0, 0⟩ ⟨0, 1, 0⟩ ⟨0, 0, -1⟩
    500 ?_
  intro l hl
  simp only [scene] at hl
  fin_cases hl <;> norm_num [Light.intensity]

/-- Accepting one root never increases the tracked closest `t`. -/
lemma consider_fst_le (t : EReal) (sphere : Sphere) (t_min t_max : EReal)
    (acc : EReal × Option Sphere) :
    (consider t sphere t_min t_max acc).1 ≤ acc.1 := by
  rw [consider]
  split_ifs with h
  · exact h.2.2.le
  · exact le_rfl

/-- After testing an in-bounds root, the tracked closest `t` is at most that
root. -/
lemma consider_fst_le_root (t : EReal) (sphere : Sphere) (t_min t_max : EReal)
    (acc : EReal × Option Sphere) (h1 : t_min ≤ t) (h2 : t ≤ t_max) :
    (consider t sphere t_min t_max acc).1 ≤ t := by
  rw [consider]
  split_ifs with h
  · exact le_rfl
  · push_neg at h
    exact h h1 h2

/-- Testing one root either leaves the accumulator unchanged or records that
root together with its sphere, strictly improving the closest `t`. -/
lemma consider_sound (t : EReal) (sphere : Sphere) (t_min t_max : EReal)
    (acc : EReal × Option Sphere) :
    consider t sphere t_min t_max acc = acc ∨
      ((consider t sphere t_min t_max acc).1 < acc.1 ∧
        (consider t sphere t_min t_max acc).2 = some sphere ∧
        (consider t sphere t_min t_max acc).1 = t ∧
        t_min ≤ t ∧ t ≤ t_max) := by
  rw [consider]
  split_ifs with h
  · exact Or.inr ⟨h.2.2, rfl, rfl, h.1, h.2.1⟩
  · exact Or.inl rfl

/-- One loop iteration never increases the tracked closest `t`. -/
lemma traceStep_fst_le (O D : Vec3) (t_min t_max : EReal)
    (acc : EReal × Option Sphere) (sphere : Sphere) :
    (traceStep O D t_min t_max acc sphere).1 ≤ acc.1 :=
  le_trans (consider_fst_le _ _ _ _ _) (consider_fst_le _ _ _ _ _)

/-- After processing a sphere, the tracked closest `t` is at most every
candidate root of that sphere. -/
lemma traceStep_fst_le_root (O D : Vec3) (t_min t_max : EReal)
    (acc : EReal × Option Sphere) (sphere : Sphere) (t : EReal)
    (h : validRoot O D t_min t_max sphere t) :
    (traceStep O D t_min t_max acc sphere).1 ≤ t := by
  obtain ⟨hroot, h1, h2⟩ := h
  rw [traceStep]
  rcases hroot with hr | hr
  · subst hr
    exact le_trans (consider_fst_le _ _ _ _ _)
      (consider_fst_le_root _ _ _ _ _ h1 h2)
  · subst hr
    exact consider_fst_le_root _ _ _ _ _ h1 h2

/-- One loop iteration either leaves the accumulator unchanged or records a
candidate root of the processed sphere, strictly improving the closest `t`;
a recorded root is never the `∞` no-hit sentinel. -/
lemma traceStep_sound (O D : Vec3) (t_min t_max : EReal)
    (acc : EReal × Option Sphere) (sphere : Sphere) :
    traceStep O D t_min t_max acc sphere = acc ∨
      ((traceStep O D t_min t_max acc sphere).1 < acc.1 ∧
        (traceStep O D t_min t_max acc sphere).2 = some sphere ∧
        validRoot O D t_min t_max sphere
          (traceStep O D t_min t_max acc sphere).1 ∧
        (traceStep O D t_min t_max acc sphere).1 ≠ ⊤) := by
  rw [traceStep]
  rcases consider_sound (IntersectRaySphere O D sphere).1 sphere t_min t_max
      acc with hA | ⟨hA1, hA2, hA3, hA4, hA5⟩
  · rw [hA]
    rcases consider_sound (IntersectRaySphere O D sphere).2 sphere t_min t_max
        acc with hB | ⟨hB1, hB2, hB3, hB4, hB5⟩
    · exact Or.inl hB
    · refine Or.inr ⟨hB1, hB2, ⟨Or.inr hB3, ?_, ?_⟩,
        ne_top_of_lt (lt_of_lt_of_le hB1 le_top)⟩
      · rw [hB3]; exact hB4
      · rw [hB3]; exact hB5
  · rcases consider_sound (IntersectRaySphere O D sphere).2 sphere t_min t_max
        (consider (IntersectRaySphere O D sphere).1 sphere t_min t_max acc)
      with hB | ⟨hB1, hB2, hB3, hB4, hB5⟩
    · rw [hB]
      refine Or.inr ⟨hA1, hA2, ⟨Or.inl hA3, ?_, ?_⟩,
        ne_top_of_lt (lt_of_lt_of_le hA1 le_top)⟩
      · rw [hA3]; exact hA4
      · rw [hA3]; exact hA5
    · refine Or.inr ⟨lt_trans hB1 hA1, hB2, ⟨Or.inr hB3, ?_, ?_⟩,
        ne_top_of_lt (lt_of_lt_of_le hB1 le_top)⟩
      · rw [hB3]; exact hB4
      · rw [hB3]; exact hB5

/-- The whole loop never increases the tracked closest `t`. -/
lemma foldl_traceStep_fst_le (O D : Vec3) (t_min t_max : EReal)
    (spheres : List Sphere) :
    ∀ acc : EReal × Option Sphere,
      (spheres.foldl (traceStep O D t_min t_max) acc).1 ≤ acc.1 := by
  induction spheres with
  | nil => intro acc; exact le_rfl
  | cons sphere rest ih =>
      intro acc
      rw [List.foldl_cons]
      exact le_trans (ih _) (traceStep_fst_le O D t_min t_max acc sphere)

/-- After the whole loop, the tracked closest `t` is at most every candidate
root of every sphere in the list. -/
lemma foldl_traceStep_min (O D : Vec3) (t_min t_max : EReal)
    (spheres : List Sphere) :
    ∀ acc : EReal × Option Sphere, ∀ s' ∈ spheres, ∀ t' : EReal,
      validRoot O D t_min t_max s' t' →
      (spheres.foldl (traceStep O D t_min t_max) acc).1 ≤ t' := by
  induction spheres with
  | nil => intro _ s' hs'; exact absurd hs' (List.not_mem_nil s')
  | cons sphere rest ih =>
      intro acc s' hs' t' hvalid
      rw [List.foldl_cons]
      rcases List.mem_cons.mp hs' with h | h
      · subst h
        exact le_trans (foldl_traceStep_fst_le O D t_min t_max rest _)
          (traceStep_fst_le_root O D t_min t_max acc s' t' hvalid)
      · exact ih _ s' h t' hvalid

/-- The whole loop either leaves the accumulator unchanged or records a
candidate root of some sphere of the list, strictly improving the closest
`t`; the recorded sphere is the first of the list achieving the recorded
root, in the sense that every candidate root of every earlier sphere is
strictly larger. -/
lemma foldl_traceStep_sound (O D : Vec3) (t_min t_max : EReal)
    (spheres : List Sphere) :
    ∀ acc : EReal × Option Sphere,
      spheres.foldl (traceStep O D t_min t_max) acc = acc ∨
        ((spheres.foldl (traceStep O D t_min t_max) acc).1 < acc.1 ∧
          ∃ l1 w l2, spheres = l1 ++ w :: l2 ∧
            (spheres.foldl (traceStep O D t_min t_max) acc).2 = some w ∧
            validRoot O D t_min t_max w
              (spheres.foldl (traceStep O D t_min t_max) acc).1 ∧
            (spheres.foldl (traceStep O D t_min t_max) acc).1 ≠ ⊤ ∧
            ∀ s' ∈ l1, ∀ t' : EReal, validRoot O D t_min t_max s' t' →
              (spheres.foldl (traceStep O D t_min t_max) acc).1 < t') := by
  induction spheres with
  | nil => intro acc; exact Or.inl rfl
  | cons sphere rest ih =>
      intro acc
      rw [List.foldl_cons]
      rcases ih (traceStep O D t_min t_max acc sphere) with h |
          ⟨hlt, l1, w, l2, hsplit, hsome, hvalid, hne, hearly⟩
      · rw [h]
        rcases traceStep_sound O D t_min t_max acc sphere with hs |
            ⟨hs1, hs2, hs3, hs4⟩
        · exact Or.inl hs
        · exact Or.inr ⟨hs1, [], sphere, rest, rfl, hs2, hs3, hs4,
            fun s' hs' => absurd hs' (List.not_mem_nil s')⟩
      · refine Or.inr ⟨lt_of_lt_of_le hlt
          (traceStep_fst_le O D t_min t_max acc sphere),
          sphere :: l1, w, l2, by rw [hsplit, List.cons_append], hsome,
          hvalid, hne, ?_⟩
        intro s' hs' t' hvalid'
        rcases List.mem_cons.mp hs' with h' | h'
        · subst h'
          exact lt_of_lt_of_le hlt
            (traceStep_fst_le_root O D t_min t_max acc s' t' hvalid')
        · exact hearly s' h' t' hvalid'

/-- C1: whenever the closest-hit loop reports a hit `(t, sphere)`, `t` is a
candidate root of that sphere (one of its two roots, within
`[t_min, t_max]`), it is least among the candidate roots of all spheres of
the list, it is never the `∞` no-hit sentinel, and every sphere occurring
earlier in the scene list has all its candidate roots strictly larger — so
on an exact tie the earlier sphere wins; conversely, when some sphere has a
finite candidate root, the loop does report a hit. -/
theorem TraceRay_selects_smallest (O D : Vec3) (t_min t_max : EReal)
    (spheres : List Sphere) :
    (∀ (t : EReal) (s : Sphere),
      findClosest O D t_min t_max spheres = (t, some s) →
        t ≠ ⊤ ∧ validRoot O D t_min t_max s t ∧
          (∀ s' ∈ spheres, ∀ t' : EReal,
            validRoot O D t_min t_max s' t' → t ≤ t') ∧
          ∃ l1 l2, spheres = l1 ++ s :: l2 ∧
            ∀ s' ∈ l1, ∀ t' : EReal,
              validRoot O D t_min t_max s' t' → t < t') ∧
    (∀ s' ∈ spheres, ∀ t' : EReal, validRoot O D t_min t_max s' t' →
      t' ≠ ⊤ → ∃ t s, findClosest O D t_min t_max spheres = (t, some s)) := by
  constructor
  · intro t s h
    rw [findClosest] at h
    rcases foldl_traceStep_sound O D t_min t_max spheres (⊤, none) with
        hres | ⟨_, l1, w, l2, hsplit, hsome, hvalid, hne, hearly⟩
    · rw [hres] at h
      exact absurd (congrArg Prod.snd h) (by simp)
    · have hw : w = s := by
        have h2 := hsome
        rw [h] at h2
        exact (Option.some_inj.mp h2).symm
      subst hw
      have hfst :
          (List.foldl (traceStep O D t_min t_max) (⊤, none) spheres).1 = t :=
        by rw [h]
      rw [hfst] at hne hvalid hearly
      refine ⟨hne, hvalid, ?_, l1, l2, hsplit, hearly⟩
      intro s' hs' t' hv
      have hm := foldl_traceStep_min O D t_min t_max spheres (⊤, none)
        s' hs' t' hv
      rwa [hfst] at hm
  · intro s' hs' t' hv hne'
    rcases foldl_traceStep_sound O D t_min t_max spheres (⊤, none) with
        hres | ⟨_, l1, w, l2, _, hsome, _, _, _⟩
    · exfalso
      have hm := foldl_traceStep_min O D t_min t_max spheres (⊤, none)
        s' hs' t' hv
      rw [hres] at hm
      exact hne' (top_le_iff.mp hm)
    · refine ⟨(List.foldl (traceStep O D t_min t_max) (⊤, none) spheres).1,
        w, ?_⟩
      rw [findClosest, ← hsome]

/-- The demo ray meets `demoSphereA` at roots `4` and `2`. -/
lemma IntersectRaySphere_demoA :
    IntersectRaySphere ⟨0, 0, 0⟩ ⟨0, 0, 1⟩ demoSphereA =
      (((4 : ℝ) : EReal), ((2 : ℝ) : EReal)) := by
  have h4 : Real.sqrt 4 = 2 := by
    rw [show (4 : ℝ) = 2 ^ 2 by norm_num, Real.sqrt_sq (by norm_num)]
  simp only [IntersectRaySphere, demoSphereA, dot, subtract]
  norm_num [h4]

/-- The demo ray meets `demoSphereB` at roots `9` and `7`. -/
lemma IntersectRaySphere_demoB :
    IntersectRaySphere ⟨0, 0, 0⟩ ⟨0, 0, 1⟩ demoSphereB =
      (((9 : ℝ) : EReal), ((7 : ℝ) : EReal)) := by
  have h4 : Real.sqrt 4 = 2 := by
    rw [show (4 : ℝ) = 2 ^ 2 by norm_num, Real.sqrt_sq (by norm_num)]
  simp only [IntersectRaySphere, demoSphereB, dot, subtract]
  norm_num [h4]

/-- On the demo scene the closest-hit loop selects `demoSphereA` at
`t = 2`. -/
lemma findClosest_demo :
    findClosest ⟨0, 0, 0⟩ ⟨0, 0, 1⟩ ((1 : ℝ) : EReal) ⊤
      [demoSphereA, demoSphereB] = (((2 : ℝ) : EReal), some demoSphereA) := by
  have c1 : consider ((4 : ℝ) : EReal) demoSphereA ((1 : ℝ) : EReal) ⊤
      (⊤, none) = (((4 : ℝ) : EReal), some demoSphereA) := by
    rw [consider, if_pos]
    exact ⟨EReal.coe_le_coe_iff.mpr (by norm_num), le_top, EReal.coe_lt_top 4⟩
  have c2 : consider ((2 : ℝ) : EReal) demoSphereA ((1 : ℝ) : EReal) ⊤
      (((4 : ℝ) : EReal), some demoSphereA) =
      (((2 : ℝ) : EReal), some demoSphereA) := by
    rw [consider, if_pos]
    exact ⟨EReal.coe_le_coe_iff.mpr (by norm_num), le_top,
      EReal.coe_lt_coe_iff.mpr (by norm_num)⟩
  have c3 : consider ((9 : ℝ) : EReal) demoSphereB ((1 : ℝ) : EReal) ⊤
      (((2 : ℝ) : EReal), some demoSphereA) =
      (((2 : ℝ) : EReal), some demoSphereA) := by
    rw [consider, if_neg]
    rintro ⟨-, -, hlt⟩
    exact absurd (EReal.coe_lt_coe_iff.mp hlt) (by norm_num)
  have c4 : consider ((7 : ℝ) : EReal) demoSphereB ((1 : ℝ) : EReal) ⊤
      (((2 : ℝ) : EReal), some demoSphereA) =
      (((2 : ℝ) : EReal), some demoSphereA) := by
    rw [consider, if_neg]
    rintro ⟨-, -, hlt⟩
    exact absurd (EReal.coe_lt_coe_iff.mp hlt) (by norm_num)
  have stepA : traceStep ⟨0, 0, 0⟩ ⟨0, 0, 1⟩ ((1 : ℝ) : EReal) ⊤
      (⊤, none) demoSphereA = (((2 : ℝ) : EReal), some demoSphereA) := by
    rw [traceStep, IntersectRaySphere_demoA]
    dsimp only
    rw [c1, c2]
  have stepB : traceStep ⟨0, 0, 0⟩ ⟨0, 0, 1⟩ ((1 : ℝ) : EReal) ⊤
      (((2 : ℝ) : EReal), some demoSphereA) demoSphereB =
      (((2 : ℝ) : EReal), some demoSphereA) := by
    rw [traceStep, IntersectRaySphere_demoB]
    dsimp only
    rw [c3, c4]
  rw [findClosest, List.foldl_cons, List.foldl_cons, List.foldl_nil,
    stepA, stepB]

/-- Witness for C1 on the demo scene: the loop reports `(2, demoSphereA)`,
so `2` is a candidate root of `demoSphereA`, least among all candidate
roots, finite, and no earlier sphere attains it. -/
theorem TraceRay_selects_smallest_witness :
    ((2 : ℝ) : EReal) ≠ ⊤ ∧
      validRoot ⟨0, 0, 0⟩ ⟨0, 0, 1⟩ ((1 : ℝ) : EReal) ⊤ demoSphereA
        ((2 : ℝ) : EReal) ∧
      (∀ s' ∈ [demoSphereA, demoSphereB], ∀ t' : EReal,
        validRoot ⟨0, 0, 0⟩ ⟨0, 0, 1⟩ ((1 : ℝ) : EReal) ⊤ s' t' →
        ((2 : ℝ) : EReal) ≤ t') ∧
      ∃ l1 l2, [demoSphereA, demoSphereB] = l1 ++ demoSphereA :: l2 ∧
        ∀ s' ∈ l1, ∀ t' : EReal,
          validRoot ⟨0, 0, 0⟩ ⟨0, 0, 1⟩ ((1 : ℝ) : EReal) ⊤ s' t' →
          ((2 : ℝ) : EReal) < t' :=
  (TraceRay_selects_smallest ⟨0, 0, 0⟩ ⟨0, 0, 1⟩ ((1 : ℝ) : EReal) ⊤
    [demoSphereA, demoSphereB]).1 _ _ findClosest_demo

/-- C5: when every candidate root of every scene sphere is the `∞` no-hit
sentinel (no sphere yields a real root within `[t_min, t_max]`), `TraceRay`
returns exactly the fixed `BACKGROUND_COLOR` constant — white,
`(255,255,255)` — independent of the scene. -/
theorem TraceRay_no_hit_background (sc : Scene) (O D : Vec3)
    (t_min t_max : EReal)
    (h : ∀ s' ∈ sc.spheres, ∀ t : EReal,
      validRoot O D t_min t_max s' t → t = ⊤) :
    TraceRay sc O D t_min t_max = BACKGROUND_COLOR ∧
      BACKGROUND_COLOR = ⟨255, 255, 255⟩ := by
  refine ⟨?_, rfl⟩
  have hfind : findClosest O D t_min t_max sc.spheres = (⊤, none) := by
    rw [findClosest]
    rcases foldl_traceStep_sound O D t_min t_max sc.spheres (⊤, none) with
        hres | ⟨_, l1, w, l2, hsplit, _, hvalid, hne, _⟩
    · exact hres
    · exact absurd (h w (by simp [hsplit]) _ hvalid) hne
  rw [TraceRay, hfind]

/-- Witness for C5: the demo ray pointed away from both demo spheres misses
everything and yields the background color. -/
theorem TraceRay_no_hit_background_witness :
    TraceRay demoScene ⟨0, 0, 0⟩ ⟨0, 1, 0⟩ ((1 : ℝ) : EReal) ⊤ =
      BACKGROUND_COLOR := by
  have hA : IntersectRaySphere ⟨0, 0, 0⟩ ⟨0, 1, 0⟩ demoSphereA = (⊤, ⊤) := by
    simp only [IntersectRaySphere, demoSphereA, dot, subtract]
    norm_num
  have hB : IntersectRaySphere ⟨0, 0, 0⟩ ⟨0, 1, 0⟩ demoSphereB = (⊤, ⊤) := by
    simp only [IntersectRaySphere, demoSphereB, dot, subtract]
    norm_num
  refine (TraceRay_no_hit_background demoScene ⟨0, 0, 0⟩ ⟨0, 1, 0⟩
    ((1 : ℝ) : EReal) ⊤ ?_).1
  intro s' hs' t hv
  have hs2 : s' = demoSphereA ∨ s' = demoSphereB := by
    simpa [demoScene] using hs'
  rcases hs2 with h' | h' <;>
    · subst h'
      rcases hv.1 with hr | hr <;> simp_all

/-- C4: on a closest hit `(t, s)`, `TraceRay` computes the hit point
`P = O + t*D`, the normal `N = (P - s.center)` normalized by its length, the
view vector `V = -D` (not normalized), and returns the sphere's color with
each channel multiplied by `ComputeLighting(P, N, V, s.specular)` — with no
clamping applied. -/
theorem TraceRay_hit_shading (sc : Scene) (O D : Vec3) (t_min t_max : EReal)
    (t : EReal) (s : Sphere)
    (h : findClosest O D t_min t_max sc.spheres = (t, some s)) :
    TraceRay sc O D t_min t_max =
      (let P : Vec3 := ⟨O.x + t.toReal * D.x, O.y + t.toReal * D.y,
        O.z + t.toReal * D.z⟩
      let N := divide (subtract P s.center) (length (subtract P s.center))
      let V : Vec3 := ⟨-D.x, -D.y, -D.z⟩
      let i := ComputeLighting sc.lights P N V s.specular
      (⟨s.color.r * i, s.color.g * i, s.color.b * i⟩ : Color)) := by
  have hP : add O (multiply D t.toReal) =
      (⟨O.x + t.toReal * D.x, O.y + t.toReal * D.y,
        O.z + t.toReal * D.z⟩ : Vec3) := by
    simp only [add, multiply, Vec3.mk.injEq]
    exact ⟨by ring, by ring, by ring⟩
  have hV : multiply D (-1) = (⟨-D.x, -D.y, -D.z⟩ : Vec3) := by
    simp only [multiply, Vec3.mk.injEq]
    exact ⟨by ring, by ring, by ring⟩
  rw [TraceRay, h]
  dsimp only
  rw [hP, hV]

/-- Witness for C4 on the demo scene: the hit at `t = 2` on `demoSphereA`
is shaded from the hit point, normalized normal, negated direction and the
ambient lighting value. -/
theorem TraceRay_hit_shading_witness :
    TraceRay ⟨[demoSphereA, demoSphereB], [Light.ambient 1]⟩
      ⟨0, 0, 0⟩ ⟨0, 0, 1⟩ ((1 : ℝ) : EReal) ⊤ =
      (let P : Vec3 := ⟨0 + (((2 : ℝ) : EReal)).toReal * 0,
        0 + (((2 : ℝ) : EReal)).toReal * 0,
        0 + (((2 : ℝ) : EReal)).toReal * 1⟩
      let N := divide (subtract P demoSphereA.center)
        (length (subtract P demoSphereA.center))
      let V : Vec3 := ⟨-0, -0, -1⟩
      let i := ComputeLighting [Light.ambient 1] P N V demoSphereA.specular
      (⟨demoSphereA.color.r * i, demoSphereA.color.g * i,
        demoSphereA.color.b * i⟩ : Color)) :=
  TraceRay_hit_shading ⟨[demoSphereA, demoSphereB], [Light.ambient 1]⟩
    ⟨0, 0, 0⟩ ⟨0, 0, 1⟩ ((1 : ℝ) : EReal) ⊤ ((2 : ℝ) : EReal) demoSphereA
    findClosest_demo

/-- C7: the projector returns exactly
`{x: px*Vw/Cw, y: py*Vh/Ch, z: d}` with no normalization applied: at the
source's viewport constants (`Vw = Vh = d = 1`) the returned vector's
magnitude varies with the pixel position. -/
theorem CanvasToViewport_formula (x y Cw Ch Vw Vh dist : ℝ) :
    CanvasToViewport x y Cw Ch Vw Vh dist =
      ⟨x * Vw / Cw, y * Vh / Ch, dist⟩ ∧
      (0 < Cw → 0 < Ch →
        length (CanvasToViewport Cw 0 Cw Ch 1 1 1) ≠
          length (CanvasToViewport 0 0 Cw Ch 1 1 1)) := by
  refine ⟨rfl, ?_⟩
  intro hw _
  simp only [CanvasToViewport, length, mul_one, div_self hw.ne', zero_div]
  norm_num

/-- Witness for C7 at an 800×600 canvas: the formula holds and the rays
through the center pixel and through pixel `(800, 0)` have different
magnitudes. -/
theorem CanvasToViewport_formula_witness :
    CanvasToViewport 3 4 800 600 1 1 1 =
      ⟨3 * 1 / 800, 4 * 1 / 600, 1⟩ ∧
      length (CanvasToViewport 800 0 800 600 1 1 1) ≠
        length (CanvasToViewport 0 0 800 600 1 1 1) :=
  ⟨(CanvasToViewport_formula 3 4 800 600 1 1 1).1,
    (CanvasToViewport_formula 3 4 800 600 1 1 1).2 (by norm_num)
      (by norm_num)⟩

/-- C8: `PutPixel` maps the centered coordinate `(x, y)` to the raster
coordinate `(Cw/2 + x, Ch/2 - y)`; in particular `(0,0)` maps to
`(Cw/2, Ch/2)`, and the raster row for `y = +1` is strictly above (smaller
row index than) the row for `y = -1`. -/
theorem PutPixel_raster_map (Cw Ch x y : ℝ) :
    rasterOfCentered Cw Ch x y = (Cw / 2 + x, Ch / 2 - y) ∧
      rasterOfCentered Cw Ch 0 0 = (Cw / 2, Ch / 2) ∧
      (rasterOfCentered Cw Ch x 1).2 < (rasterOfCentered Cw Ch x (-1)).2 := by
  refine ⟨rfl, ?_, ?_⟩
  · simp [rasterOfCentered]
  · simp only [rasterOfCentered]
    linarith

/-- C9: when the converted raster coordinate falls outside
`[0, Cw) × [0, Ch)`, `PutPixel` returns the pixel buffer completely
unchanged (and, being a total function, raises no error). -/
theorem PutPixel_out_of_bounds (Cw Ch x y : ℝ) (color : Color)
    (data : ℝ → ℝ)
    (h : ¬(0 ≤ (rasterOfCentered Cw Ch x y).1 ∧
        (rasterOfCentered Cw Ch x y).1 < Cw ∧
        0 ≤ (rasterOfCentered Cw Ch x y).2 ∧
        (rasterOfCentered Cw Ch x y).2 < Ch)) :
    PutPixel Cw Ch x y color data = data := by
  have hcond : (rasterOfCentered Cw Ch x y).1 < 0 ∨
      Cw ≤ (rasterOfCentered Cw Ch x y).1 ∨
      (rasterOfCentered Cw Ch x y).2 < 0 ∨
      Ch ≤ (rasterOfCentered Cw Ch x y).2 := by
    by_contra hc
    push_neg at hc
    exact h ⟨hc.1, hc.2.1, hc.2.2.1, hc.2.2.2⟩
  rw [PutPixel]
  dsimp only
  rw [if_pos hcond]

/-- Witness for C9: on an 800×600 canvas, the centered coordinate
`(10000, 0)` converts to raster column `10400 ≥ 800`, and the buffer is
returned untouched. -/
theorem PutPixel_out_of_bounds_witness :
    PutPixel 800 600 10000 0 ⟨1, 2, 3⟩ (fun _ => 0) = (fun _ => 0) :=
  PutPixel_out_of_bounds 800 600 10000 0 ⟨1, 2, 3⟩ (fun _ => 0)
    (by norm_num [rasterOfCentered])

end RayTracer
